import Mathlib

/-!
Verification of the comm_sse event fan-out relay (`server.js`, `fix_trigger.sql`).

The repository's `server.js` contains three revisions of the same Express/SSE
relay; the definitive revision selects between a Redis broker mode and a
local fan-out mode (`useRedis`).  We shallowly embed the data model and the
operations the claims are about:

* JSON events and their serialization to `data: <json>\n\n` SSE frames;
* the slug-scoped `/events/:url_slug` endpoint (registry of sinks per slug,
  one dedicated pooled Postgres connection per request, notification filter);
* the local-mode global comment stream (`localSSEClients`,
  `/api/comment/notify` fan-out loop, close/error teardown);
* the broker-mode global comment stream (shared Redis subscriber, per-sink
  `isActive` flag, channel-wide `unsubscribe`);
* the per-user notification stream (`/notifications/stream/:userId` re-query).

Asynchronous handler execution is modelled with explicit small-step state
machines; writes that may fail are modelled by an environment `ok : Nat → Bool`
saying which sinks' `res.write` calls succeed.
-/

namespace CommSse

/-! ## JSON values and events -/

/-- A (simplified) JSON scalar value, enough for the event payloads the relay
handles: strings, integers and null. -/
inductive JValue : Type
  | str (s : String)
  | num (n : Int)
  | null
deriving DecidableEq

/-- Rendering of a scalar value, as `JSON.stringify` would produce it
(string escaping is not modelled; the payload strings in scope contain no
characters needing escapes). -/
def JValue.render : JValue → String
  | .str s => "\"" ++ s ++ "\""
  | .num n => toString n
  | .null => "null"

/-- An event: an ordered mapping of field names to values, as produced by
`JSON.parse` on a notification payload or received as a request body. -/
structure Event : Type where
  fields : List (String × JValue)
deriving DecidableEq

/-- First-match association-list lookup (JS object field access on our
ordered-field model). -/
def assocGet {α β : Type} [DecidableEq α] (k : α) : List (α × β) → Option β
  | [] => none
  | e :: rest => if e.1 = k then some e.2 else assocGet k rest

/-- Update every entry with the given key by `f`, leaving other entries
unchanged (JS in-place field/entry mutation on our association lists). -/
def assocUpdate {α β : Type} [DecidableEq α] (k : α) (f : β → β)
    (l : List (α × β)) : List (α × β) :=
  l.map (fun e => if e.1 = k then (e.1, f e.2) else e)

/-- Serialization as `JSON.stringify` performs it on a parsed event
object: the fields in order,
rendered as a JSON object. -/
def Event.render (e : Event) : String :=
  "\x7b" ++ String.intercalate ","
    (e.fields.map (fun kv => "\"" ++ kv.1 ++ "\":" ++ kv.2.render)) ++ "\x7d"

/-- One server-sent-event frame carrying a JSON body:
`res.write("data: " + json + "\n\n")`. -/
def sseFrame (json : String) : String := "data: " ++ json ++ "\n\n"

/-- The result of `JSON.parse` on an inbound payload: either a decode failure
(the `catch` path) or a parsed event object. -/
inductive Payload : Type
  | malformed
  | ok (e : Event)
deriving DecidableEq

/-- The string value of the event's `url_slug` field, if present and a string
(`data.url_slug === url_slug` in JS is a strict string comparison, so a
missing or non-string field never matches). -/
def Event.urlSlug (e : Event) : Option String :=
  match assocGet "url_slug" e.fields with
  | some (.str s) => some s
  | _ => none

/-! ## The `/events/:url_slug` notification filter (server.js lines 100-111)

```js
const notify = (msg) => {
  try {
    const data = JSON.parse(msg.payload);
    if (data.url_slug === url_slug) {
      res.write(`data: ${JSON.stringify(data)}\n\n`);
    }
  } catch (err) { /- JSON 파싱 실패 무시 -/ }
};
```
The returned `Option String` is the at-most-one frame the handler writes to
this subscriber's stream for one received notification. -/

def eventsNotify (url_slug : String) (msg : Payload) : Option String :=
  match msg with
  | .malformed => none
  | .ok data =>
    if data.urlSlug = some url_slug then
      some (sseFrame data.render)
    else
      none

/-- Sample decoded payload correlated with slug `"abc"`. -/
def demoEventAbc : Event :=
  ⟨[("event", .str "INSERT"), ("url_slug", .str "abc"),
    ("content", .str "hello")]⟩

/-- Sample decoded payload correlated with slug `"xyz"`. -/
def demoEventXyz : Event :=
  ⟨[("event", .str "INSERT"), ("url_slug", .str "xyz"),
    ("content", .str "other")]⟩

/-- C1: a client subscribed to slug-scoped topic `slug` receives, for a
notification whose decoded payload's topic-correlation field (`url_slug`)
equals `slug`, exactly one `data:` frame with that JSON, and receives nothing
for a notification correlated with a different slug. -/
theorem events_slug_filtering (slug otherSlug : String) (e e' : Event)
    (hmatch : e.urlSlug = some slug)
    (hother : e'.urlSlug = some otherSlug)
    (hne : otherSlug ≠ slug) :
    eventsNotify slug (.ok e) = some (sseFrame e.render) ∧
    eventsNotify slug (.ok e') = none := by
  constructor
  · simp [eventsNotify, hmatch]
  · simp [eventsNotify, hother, hne]

/-- C1 witness: the scenario with slugs `"abc"` and `"xyz"` on concrete
payloads. -/
theorem events_slug_filtering_witness :
    eventsNotify "abc" (.ok demoEventAbc) = some (sseFrame demoEventAbc.render) ∧
    eventsNotify "abc" (.ok demoEventXyz) = none :=
  events_slug_filtering "abc" "xyz" demoEventAbc demoEventXyz
    (by decide) (by decide) (by decide)

/-! ## Association-list lemmas -/

theorem assocGet_eq_none_iff {α β : Type} [DecidableEq α] (k : α)
    (l : List (α × β)) :
    assocGet k l = none ↔ ∀ kv ∈ l, kv.1 ≠ k := by
  induction l with
  | nil => simp [assocGet]
  | cons e rest ih =>
    by_cases h : e.1 = k
    · simp [assocGet, h]
    · simp [assocGet, h, ih]

theorem assocGet_append {α β : Type} [DecidableEq α] (k : α)
    (l₁ l₂ : List (α × β)) :
    assocGet k (l₁ ++ l₂) =
      match assocGet k l₁ with
      | some v => some v
      | none => assocGet k l₂ := by
  induction l₁ with
  | nil => simp [assocGet]
  | cons e rest ih =>
    by_cases h : e.1 = k <;> simp [assocGet, h, ih]

theorem assocGet_update_self {α β : Type} [DecidableEq α] (k : α) (f : β → β)
    (l : List (α × β)) :
    assocGet k (assocUpdate k f l) = (assocGet k l).map f := by
  induction l with
  | nil => simp [assocGet, assocUpdate]
  | cons e rest ih =>
    by_cases h : e.1 = k
    · simp [assocGet, assocUpdate, h]
    · simpa [assocGet, assocUpdate, h] using ih

theorem assocGet_update_ne {α β : Type} [DecidableEq α] {a k : α}
    (h : a ≠ k) (f : β → β) (l : List (α × β)) :
    assocGet a (assocUpdate k f l) = assocGet a l := by
  induction l with
  | nil => rfl
  | cons e rest ih =>
    by_cases he : e.1 = k
    · have hea : e.1 ≠ a := fun hk => h (by rw [← hk]; exact he)
      rw [assocUpdate, List.map_cons, if_pos he]
      show assocGet a ((e.1, f e.2) :: assocUpdate k f rest) = _
      rw [assocGet, assocGet, if_neg hea, if_neg hea]
      exact ih
    · rw [assocUpdate, List.map_cons, if_neg he]
      show assocGet a (e :: assocUpdate k f rest) = _
      rw [assocGet, assocGet]
      by_cases ha : e.1 = a
      · rw [if_pos ha, if_pos ha]
      · rw [if_neg ha, if_neg ha]
        exact ih

theorem assocUpdate_keys {α β : Type} [DecidableEq α] (k : α) (f : β → β)
    (l : List (α × β)) :
    (assocUpdate k f l).map Prod.fst = l.map Prod.fst := by
  induction l with
  | nil => rfl
  | cons e rest ih =>
    by_cases h : e.1 = k
    · rw [assocUpdate, List.map_cons, if_pos h, List.map_cons, List.map_cons]
      exact congrArg (e.1 :: ·) ih
    · rw [assocUpdate, List.map_cons, if_neg h, List.map_cons, List.map_cons]
      exact congrArg (e.1 :: ·) ih

theorem mem_assocUpdate {α β : Type} [DecidableEq α] {k : α} {f : β → β}
    {l : List (α × β)} {kv : α × β} (h : kv ∈ assocUpdate k f l) :
    (∃ v, (k, v) ∈ l ∧ kv = (k, f v)) ∨ (kv ∈ l ∧ kv.1 ≠ k) := by
  induction l with
  | nil => simp [assocUpdate] at h
  | cons e rest ih =>
    rw [assocUpdate, List.map_cons] at h
    rcases List.mem_cons.mp h with h | h
    · by_cases he : e.1 = k
      · rw [if_pos he] at h
        refine Or.inl ⟨e.2, List.mem_cons.mpr (Or.inl (by rw [← he])), ?_⟩
        rw [h, he]
      · rw [if_neg he] at h
        refine Or.inr ⟨List.mem_cons.mpr (Or.inl h), ?_⟩
        rw [h]
        exact he
    · rcases ih h with ⟨v, hv, hkv⟩ | ⟨hmem, hne⟩
      · exact Or.inl ⟨v, List.mem_cons_of_mem _ hv, hkv⟩
      · exact Or.inr ⟨List.mem_cons_of_mem _ hmem, hne⟩

theorem assocGet_mem {α β : Type} [DecidableEq α] {k : α} {v : β}
    {l : List (α × β)} (h : assocGet k l = some v) : (k, v) ∈ l := by
  induction l with
  | nil => simp [assocGet] at h
  | cons e rest ih =>
    by_cases he : e.1 = k
    · simp only [assocGet, if_pos he, Option.some.injEq] at h
      exact List.mem_cons.mpr (Or.inl (by rw [← he, ← h]))
    · simp only [assocGet, if_neg he] at h
      exact List.mem_cons_of_mem _ (ih h)

theorem assocGet_isSome_of_mem {α β : Type} [DecidableEq α] {k : α} {v : β}
    {l : List (α × β)} (h : (k, v) ∈ l) : (assocGet k l).isSome := by
  induction l with
  | nil => simp at h
  | cons e rest ih =>
    by_cases he : e.1 = k
    · simp [assocGet, he]
    · rcases List.mem_cons.mp h with h | h
      · exact absurd (congrArg Prod.fst h.symm) he
      · simpa [assocGet, he] using ih h

theorem assocGet_filter_key_self {α β : Type} [DecidableEq α] (k : α)
    (l : List (α × β)) :
    assocGet k (l.filter (fun kv => kv.1 != k)) = none := by
  induction l with
  | nil => rfl
  | cons e rest ih =>
    by_cases he : e.1 = k
    · simp [List.filter_cons, he, ih]
    · simp [List.filter_cons, he, assocGet, ih]

theorem assocGet_filter_key_ne {α β : Type} [DecidableEq α] {a k : α}
    (h : a ≠ k) (l : List (α × β)) :
    assocGet a (l.filter (fun kv => kv.1 != k)) = assocGet a l := by
  induction l with
  | nil => rfl
  | cons e rest ih =>
    by_cases he : e.1 = k
    · have hea : e.1 ≠ a := fun hk => h (by rw [← hk]; exact he)
      rw [List.filter_cons, if_neg (by simp [he])]
      conv_rhs => rw [assocGet]
      rw [if_neg hea]
      exact ih
    · rw [List.filter_cons, if_pos (by simp [he])]
      show (if e.1 = a then some e.2
          else assocGet a (rest.filter (fun kv => kv.1 != k))) = _
      conv_rhs => rw [assocGet]
      by_cases ha : e.1 = a
      · rw [if_pos ha, if_pos ha]
      · rw [if_neg ha, if_neg ha]
        exact ih

theorem eq_snd_of_nodup_keys {α β : Type} {l : List (α × β)}
    (h : (l.map Prod.fst).Nodup) {a : α} {b c : β}
    (h1 : (a, b) ∈ l) (h2 : (a, c) ∈ l) : b = c := by
  induction l with
  | nil => simp at h1
  | cons e rest ih =>
    rw [List.map_cons, List.nodup_cons] at h
    rcases List.mem_cons.mp h1 with h1 | h1 <;>
      rcases List.mem_cons.mp h2 with h2 | h2
    · exact congrArg Prod.snd (h1.trans h2.symm)
    · exfalso
      apply h.1
      have ha : a ∈ rest.map Prod.fst := List.mem_map.mpr ⟨(a, c), h2, rfl⟩
      have hea : e.1 = a := by rw [← h1]
      rw [hea]
      exact ha
    · exfalso
      apply h.1
      have ha : a ∈ rest.map Prod.fst := List.mem_map.mpr ⟨(a, b), h1, rfl⟩
      have hea : e.1 = a := by rw [← h2]
      rw [hea]
      exact ha
    · exact ih h.2 h1 h2

/-! ## The slug-scoped subscription registry (`/events/:url_slug`)

Source (server.js lines 83-129): each request acquires a dedicated pooled
Postgres connection (`pool.connect()`), issues `LISTEN post_trigger` on it,
and pushes its response object into `clients[url_slug]`.  On `req.close` the
request removes its own sink from `clients[url_slug]`; only when the slug's
list becomes empty does it `UNLISTEN`, release **its own** connection, and
delete the registry entry.

State: `registry` maps a slug to the sink ids subscribed to it; `conns`
lists the currently-acquired (unreleased) pooled listening connections as
(owning sink id, slug) pairs. -/

structure EventsState : Type where
  registry : List (String × List Nat)
  conns : List (Nat × String)

/-- The sink list `clients[url_slug]`, defaulting to empty when absent. -/
def sinksOf (s : EventsState) (slug : String) : List Nat :=
  (assocGet slug s.registry).getD []

/-- Number of unreleased dedicated listening connections acquired for
subscriptions to `slug` (each such connection carries one `LISTEN`
registration). -/
def connCount (s : EventsState) (slug : String) : Nat :=
  (s.conns.filter (fun c => c.2 == slug)).length

/-- Assignment `clients[url_slug] = l` (creating the entry if absent, as
`if (!clients[url_slug]) clients[url_slug] = []` followed by assignment). -/
def setSinks (reg : List (String × List Nat)) (slug : String) (l : List Nat) :
    List (String × List Nat) :=
  if (assocGet slug reg).isSome then assocUpdate slug (fun _ => l) reg
  else reg ++ [(slug, l)]

/-- Request setup (lines 83-98): acquire a pooled connection, `LISTEN`,
and push this request's sink onto `clients[url_slug]`. -/
def subscribeSlug (s : EventsState) (slug : String) (sid : Nat) : EventsState :=
  { registry := setSinks s.registry slug (sinksOf s slug ++ [sid]),
    conns := s.conns ++ [(sid, slug)] }

/-- The `req.on("close")` handler (lines 113-124): filter this sink out of
`clients[url_slug]`; if the list became empty, `UNLISTEN`, release this
request's own connection and delete the entry — otherwise release nothing. -/
def closeSlug (s : EventsState) (slug : String) (sid : Nat) : EventsState :=
  let remaining := (sinksOf s slug).filter (fun r => r != sid)
  if remaining.length = 0 then
    { registry := s.registry.filter (fun kv => kv.1 != slug),
      conns := s.conns.filter (fun c => c.1 != sid) }
  else
    { registry := setSinks s.registry slug remaining,
      conns := s.conns }

/-- Reachable states of the `/events/:url_slug` subsystem: any interleaving
of request setups (with globally fresh request/sink identities) and close
events for currently-subscribed sinks. -/
inductive EventsReach : EventsState → Prop
  | init : EventsReach ⟨[], []⟩
  | subscribe (s : EventsState) (slug : String) (sid : Nat)
      (hfreshConn : ∀ c ∈ s.conns, c.1 ≠ sid)
      (hfreshSink : ∀ kv ∈ s.registry, sid ∉ kv.2) :
      EventsReach s → EventsReach (subscribeSlug s slug sid)
  | close (s : EventsState) (slug : String) (sid : Nat)
      (hmem : sid ∈ sinksOf s slug) :
      EventsReach s → EventsReach (closeSlug s slug sid)

/-- Entries of `setSinks reg slug l` are the new entry or untouched old
entries with a different key. -/
theorem mem_setSinks {reg : List (String × List Nat)} {slug : String}
    {l : List Nat} {kv : String × List Nat} (h : kv ∈ setSinks reg slug l) :
    kv = (slug, l) ∨ (kv ∈ reg ∧ kv.1 ≠ slug) := by
  unfold setSinks at h
  by_cases hs : (assocGet slug reg).isSome
  · rw [if_pos hs] at h
    rcases mem_assocUpdate h with ⟨v, _, hkv⟩ | ⟨hmem, hne⟩
    · exact Or.inl hkv
    · exact Or.inr ⟨hmem, hne⟩
  · rw [if_neg hs] at h
    rcases List.mem_append.mp h with h | h
    · refine Or.inr ⟨h, ?_⟩
      have := (assocGet_eq_none_iff slug reg).mp
        (Option.not_isSome_iff_eq_none.mp hs)
      exact this kv h
    · exact Or.inl (by simpa using h)

/-- Invariant tying the registry to the pool: connection owners are distinct,
every slug's sink list is duplicate-free, and every subscribed sink still
holds the dedicated connection it acquired for that slug. -/
def EventsInv (s : EventsState) : Prop :=
  (s.conns.map Prod.fst).Nodup ∧
  (∀ kv ∈ s.registry, (kv.2 : List Nat).Nodup) ∧
  (∀ kv ∈ s.registry, ∀ sid ∈ kv.2, (sid, kv.1) ∈ s.conns)

theorem eventsInv_of_reach {s : EventsState} (h : EventsReach s) :
    EventsInv s := by
  induction h with
  | init => exact ⟨List.nodup_nil, by simp, by simp⟩
  | subscribe s slug sid hfreshConn hfreshSink _ ih =>
    obtain ⟨hndC, hndE, hmemE⟩ := ih
    refine ⟨?_, ?_, ?_⟩
    · show ((s.conns ++ [(sid, slug)]).map Prod.fst).Nodup
      rw [List.map_append, List.nodup_append]
      refine ⟨hndC, by simp, ?_⟩
      intro a ha hb
      simp at hb
      subst hb
      rcases List.mem_map.mp ha with ⟨c, hc, hc1⟩
      exact hfreshConn c hc hc1
    · intro kv hkv
      rcases mem_setSinks hkv with hkv | ⟨hkv, _⟩
      · subst hkv
        show (sinksOf s slug ++ [sid]).Nodup
        cases heq : assocGet slug s.registry with
        | none =>
          simp [sinksOf, heq]
        | some old =>
          have hm := assocGet_mem heq
          rw [List.nodup_append]
          refine ⟨by simpa [sinksOf, heq] using hndE _ hm, by simp, ?_⟩
          intro a ha hb
          simp at hb
          subst hb
          exact hfreshSink _ hm (by simpa [sinksOf, heq] using ha)
      · exact hndE kv hkv
    · intro kv hkv sid' hsid'
      rcases mem_setSinks hkv with hkv | ⟨hkv, _⟩
      · subst hkv
        simp only at hsid'
        rcases List.mem_append.mp hsid' with hsid' | hsid'
        · cases heq : assocGet slug s.registry with
          | none => simp [sinksOf, heq] at hsid'
          | some old =>
            have hm := assocGet_mem heq
            exact List.mem_append_left _
              (hmemE _ hm sid' (by simpa [sinksOf, heq] using hsid'))
        · simp at hsid'
          subst hsid'
          exact List.mem_append_right _ (by simp)
      · exact List.mem_append_left _ (hmemE kv hkv sid' hsid')
  | close s slug sid hmem _ ih =>
    obtain ⟨hndC, hndE, hmemE⟩ := ih
    cases heq : assocGet slug s.registry with
    | none => rw [sinksOf, heq] at hmem; simp at hmem
    | some old =>
    have hentry : (slug, old) ∈ s.registry := assocGet_mem heq
    have hold : sinksOf s slug = old := by rw [sinksOf, heq]; rfl
    have hconnSid : (sid, slug) ∈ s.conns :=
      hmemE _ hentry sid (hold ▸ hmem)
    rw [closeSlug]
    by_cases hlen : ((sinksOf s slug).filter (fun r => r != sid)).length = 0
    · rw [if_pos hlen]
      refine ⟨?_, ?_, ?_⟩
      · exact ((List.filter_sublist s.conns).map Prod.fst).nodup hndC
      · intro kv hkv
        exact hndE kv (List.mem_of_mem_filter hkv)
      · intro kv hkv sid' hsid'
        have hkv' := List.mem_filter.mp hkv
        have hkvne : kv.1 ≠ slug := by simpa using hkv'.2
        have hc : (sid', kv.1) ∈ s.conns := hmemE kv hkv'.1 sid' hsid'
        refine List.mem_filter.mpr ⟨hc, ?_⟩
        simp only [bne_iff_ne, ne_eq, decide_not]
        intro hss
        subst hss
        exact hkvne (eq_snd_of_nodup_keys hndC hc hconnSid)
    · rw [if_neg hlen]
      refine ⟨hndC, ?_, ?_⟩
      · intro kv hkv
        rcases mem_setSinks hkv with hkv | ⟨hkv, _⟩
        · subst hkv
          exact List.Nodup.filter _ (hold ▸ hndE _ hentry)
        · exact hndE kv hkv
      · intro kv hkv sid' hsid'
        rcases mem_setSinks hkv with hkv | ⟨hkv, _⟩
        · subst hkv
          simp only at hsid'
          exact hold ▸ hmemE _ hentry sid'
            (hold ▸ List.mem_of_mem_filter hsid')
        · exact hmemE kv hkv sid' hsid'

/-- C2 amended: at every reachable state, a slug-scoped topic with `n`
currently-subscribed sinks holds at least `n` dedicated listening
connections — registrations are per-sink, not at most one per topic. -/
theorem events_conn_per_sink (s : EventsState) (h : EventsReach s)
    (slug : String) :
    (sinksOf s slug).length ≤ connCount s slug := by
  obtain ⟨hndC, hndE, hmemE⟩ := eventsInv_of_reach h
  cases heq : assocGet slug s.registry with
  | none => simp [sinksOf, heq]
  | some old =>
    have hentry : (slug, old) ∈ s.registry := assocGet_mem heq
    have hold : sinksOf s slug = old := by rw [sinksOf, heq]; rfl
    have hnd : (old.map (fun sid => (sid, slug))).Nodup :=
      (hndE _ hentry).map (fun a b hab => congrArg Prod.fst hab)
    have hsub : old.map (fun sid => (sid, slug)) ⊆
        s.conns.filter (fun c => c.2 == slug) := by
      intro c hc
      rcases List.mem_map.mp hc with ⟨sid', hsid', rfl⟩
      exact List.mem_filter.mpr ⟨hmemE _ hentry sid' hsid', by simp⟩
    have := (List.subperm_of_subset hnd hsub).length_le
    rw [List.length_map] at this
    rw [hold, connCount]
    exact this

/-- The state after two clients (sink ids 0 and 1) subscribe to slug
`"abc"`. -/
def demoTwo : EventsState :=
  subscribeSlug (subscribeSlug ⟨[], []⟩ "abc" 0) "abc" 1

/-- C2 counterexample: a reachable state (two subscribers on slug `"abc"`)
holding two dedicated listening connections for one topic key, refuting
"at most one underlying listen registration per topic key". -/
theorem events_two_conns_for_one_topic :
    EventsReach demoTwo ∧ ¬ connCount demoTwo "abc" ≤ 1 :=
  ⟨EventsReach.subscribe _ "abc" 1 (by decide) (by decide)
      (EventsReach.subscribe _ "abc" 0 (by decide) (by decide)
        EventsReach.init),
    by decide⟩

/-- C2 witness: the amended bound evaluated at the two-subscriber state. -/
theorem events_conn_per_sink_witness :
    (sinksOf demoTwo "abc").length ≤ connCount demoTwo "abc" :=
  events_conn_per_sink demoTwo
    (EventsReach.subscribe _ "abc" 1 (by decide) (by decide)
      (EventsReach.subscribe _ "abc" 0 (by decide) (by decide)
        EventsReach.init))
    "abc"

/-- Both subscribers of `demoTwo` disconnect: first sink 1 (non-last), then
sink 0 (last). -/
def demoLeak : EventsState :=
  closeSlug (closeSlug demoTwo "abc" 1) "abc" 0

/-- C5: after both subscribers of slug `"abc"` disconnect, the registry is
empty yet sink 1's pooled connection is still held: the close handler of a
non-last sink releases nothing, and the last close releases only its own
connection, so one acquired connection is leaked forever. -/
theorem events_connection_leak :
    EventsReach demoLeak ∧ demoLeak.registry = [] ∧
    demoLeak.conns = [(1, "abc")] :=
  ⟨EventsReach.close _ "abc" 0 (by decide)
      (EventsReach.close _ "abc" 1 (by decide)
        (EventsReach.subscribe _ "abc" 1 (by decide) (by decide)
          (EventsReach.subscribe _ "abc" 0 (by decide) (by decide)
            EventsReach.init))),
    by decide, by decide⟩

/-! ## The global comment stream, local (no-broker) mode

Source (server.js lines 386-424, 527-555).  On connect the handler writes
one `connected` frame and, in local mode, pushes `res` onto
`localSSEClients`.  `/api/comment/notify` serializes the body once and
writes the same string to every registered sink inside a `try/catch` that
only logs failures; the response reports `localSSEClients.length`.  The
close and error handlers both splice the sink out of `localSSEClients` if
it is still present. -/

/-- The immediate connection-confirmation object (lines 390-397):
`{event: "connected", message: useRedis ? "SSE 연결 성공 (Redis 모드)"
: "SSE 연결 성공 (로컬 모드)"}`. -/
def connectedEvent (useRedis : Bool) : Event :=
  ⟨[("event", .str "connected"),
    ("message", .str (if useRedis then "SSE 연결 성공 (Redis 모드)"
      else "SSE 연결 성공 (로컬 모드)"))]⟩

/-- The initial frame written to every new global-stream sink. -/
def connectedFrame (useRedis : Bool) : String :=
  sseFrame (connectedEvent useRedis).render

/-- Local-mode state: the `localSSEClients` array (as sink ids) and, per
sink id, the ordered list of frames written to that client's stream. -/
structure LocalState : Type where
  clients : List Nat
  streams : List (Nat × List String)

/-- Frames written so far to sink `sid`. -/
def getStream (st : List (Nat × List String)) (sid : Nat) : List String :=
  (assocGet sid st).getD []

/-- Effect of `res.write(frame)` on sink `sid`: append the frame to its
stream. -/
def appendFrame (st : List (Nat × List String)) (sid : Nat) (frame : String) :
    List (Nat × List String) :=
  assocUpdate sid (fun fs => fs ++ [frame]) st

/-- Write `frame` to each target sink in order; a sink whose write fails
(`ok c = false`, the `catch` path) is skipped and iteration continues. -/
def fanout (ok : Nat → Bool) (frame : String) (targets : List Nat)
    (st : List (Nat × List String)) : List (Nat × List String) :=
  targets.foldl (fun acc c => if ok c then appendFrame acc c frame else acc) st

/-- A new local-mode subscriber: the `connected` frame is written first,
then the sink is appended to `localSSEClients`. -/
def localConnect (s : LocalState) (sid : Nat) : LocalState :=
  { clients := s.clients ++ [sid],
    streams := s.streams ++ [(sid, [connectedFrame false])] }

/-- Endpoint `/api/comment/notify`, local branch (lines 536-549): build
`data: ${JSON.stringify(commentData)}\n\n` once, attempt it on every
registered sink, and answer with `localSSEClients.length` (the count
interpolated into the success message). -/
def localPublish (ok : Nat → Bool) (s : LocalState) (e : Event) :
    LocalState × Nat :=
  ({ clients := s.clients,
     streams := fanout ok (sseFrame e.render) s.clients s.streams },
   s.clients.length)

/-- Splice-out step `const idx = localSSEClients.indexOf(res); if (idx !== -1)
localSSEClients.splice(idx, 1)` — remove the first occurrence if present. -/
def removeClient (l : List Nat) (res : Nat) : List Nat :=
  match l with
  | [] => []
  | r :: rest => if r = res then rest else r :: removeClient rest res

/-- The local-mode `req.on("close")` and `res.on("error")` handlers (lines
405-421) have the same registry effect: splice the sink out if present. -/
def localTeardown (s : LocalState) (sid : Nat) : LocalState :=
  { clients := removeClient s.clients sid, streams := s.streams }

/-- Reachable local-mode states under a fixed write-success environment
`ok`: connections of fresh sinks, publishes, and close/error teardowns in
any order. -/
inductive LocalReach (ok : Nat → Bool) : LocalState → Prop
  | init : LocalReach ok ⟨[], []⟩
  | connect (s : LocalState) (sid : Nat)
      (hfresh : assocGet sid s.streams = none) :
      LocalReach ok s → LocalReach ok (localConnect s sid)
  | publish (s : LocalState) (e : Event) :
      LocalReach ok s → LocalReach ok (localPublish ok s e).1
  | teardown (s : LocalState) (sid : Nat) :
      LocalReach ok s → LocalReach ok (localTeardown s sid)

/-! ### Fan-out and teardown lemmas -/

theorem fanout_cons (ok : Nat → Bool) (frame : String) (c : Nat)
    (ts : List Nat) (st : List (Nat × List String)) :
    fanout ok frame (c :: ts) st =
      fanout ok frame ts (if ok c then appendFrame st c frame else st) := rfl

theorem fanout_keys (ok : Nat → Bool) (frame : String) (targets : List Nat)
    (st : List (Nat × List String)) :
    (fanout ok frame targets st).map Prod.fst = st.map Prod.fst := by
  induction targets generalizing st with
  | nil => rfl
  | cons c ts ih =>
    rw [fanout_cons, ih]
    by_cases h : ok c
    · rw [if_pos h]
      exact assocUpdate_keys _ _ _
    · rw [if_neg h]

theorem fanout_get_not_mem {sid : Nat} {targets : List Nat}
    (ok : Nat → Bool) (frame : String) (h : sid ∉ targets)
    (st : List (Nat × List String)) :
    assocGet sid (fanout ok frame targets st) = assocGet sid st := by
  induction targets generalizing st with
  | nil => rfl
  | cons c ts ih =>
    have hne : c ≠ sid := fun hc => h (hc ▸ List.mem_cons_self c ts)
    have hnm : sid ∉ ts := fun hm => h (List.mem_cons_of_mem _ hm)
    rw [fanout_cons, ih hnm]
    by_cases hc : ok c
    · rw [if_pos hc]
      exact assocGet_update_ne (fun hs => hne hs.symm) _ st
    · rw [if_neg hc]

theorem fanout_get_not_ok {sid : Nat} (ok : Nat → Bool) (frame : String)
    (h : ok sid = false) (targets : List Nat)
    (st : List (Nat × List String)) :
    assocGet sid (fanout ok frame targets st) = assocGet sid st := by
  induction targets generalizing st with
  | nil => rfl
  | cons c ts ih =>
    rw [fanout_cons, ih]
    by_cases hcs : c = sid
    · subst hcs
      rw [if_neg (by rw [h]; exact Bool.false_ne_true)]
    · by_cases hc : ok c
      · rw [if_pos hc]
        exact assocGet_update_ne (fun hs => hcs hs.symm) _ st
      · rw [if_neg hc]

theorem fanout_get_delivered {sid : Nat} {targets : List Nat}
    (ok : Nat → Bool) (frame : String) (hnd : targets.Nodup)
    (hmem : sid ∈ targets) (hok : ok sid = true)
    (st : List (Nat × List String)) :
    assocGet sid (fanout ok frame targets st) =
      (assocGet sid st).map (fun fs => fs ++ [frame]) := by
  induction targets generalizing st with
  | nil => simp at hmem
  | cons c ts ih =>
    rw [List.nodup_cons] at hnd
    rcases List.mem_cons.mp hmem with hmem | hmem
    · subst hmem
      rw [fanout_cons, if_pos hok, fanout_get_not_mem ok frame hnd.1]
      exact assocGet_update_self _ _ _
    · have hne : c ≠ sid := fun hc => hnd.1 (hc ▸ hmem)
      rw [fanout_cons]
      by_cases hc : ok c
      · rw [if_pos hc, ih hnd.2 hmem, appendFrame,
          assocGet_update_ne (fun hs => hne hs.symm)]
      · rw [if_neg hc, ih hnd.2 hmem]

theorem removeClient_sublist (l : List Nat) (a : Nat) :
    List.Sublist (removeClient l a) l := by
  induction l with
  | nil => exact List.Sublist.refl _
  | cons r rest ih =>
    rw [removeClient]
    by_cases h : r = a
    · rw [if_pos h]
      exact List.sublist_cons_self r rest
    · rw [if_neg h]
      exact List.Sublist.cons₂ r ih

theorem removeClient_of_not_mem {l : List Nat} {a : Nat} (h : a ∉ l) :
    removeClient l a = l := by
  induction l with
  | nil => rfl
  | cons r rest ih =>
    have hra : r ≠ a := fun hr => h (hr ▸ List.mem_cons_self r rest)
    rw [removeClient, if_neg hra,
      ih (fun hm => h (List.mem_cons_of_mem _ hm))]

theorem not_mem_removeClient_self {l : List Nat} {a : Nat} (h : l.Nodup) :
    a ∉ removeClient l a := by
  induction l with
  | nil => simp [removeClient]
  | cons r rest ih =>
    rw [List.nodup_cons] at h
    rw [removeClient]
    by_cases hr : r = a
    · rw [if_pos hr]
      exact fun hm => h.1 (hr ▸ hm)
    · rw [if_neg hr]
      intro hm
      rcases List.mem_cons.mp hm with hm | hm
      · exact hr hm.symm
      · exact ih h.2 hm

/-- Keys of the stream table detect registered streams. -/
theorem assocGet_isSome_iff_mem_keys {α β : Type} [DecidableEq α] (k : α)
    (l : List (α × β)) :
    (assocGet k l).isSome ↔ k ∈ l.map Prod.fst := by
  induction l with
  | nil => simp [assocGet]
  | cons e rest ih =>
    by_cases he : e.1 = k
    · simp [assocGet, he]
    · have hke : ¬ k = e.1 := fun h => he h.symm
      simp [assocGet, he, hke, ih]

/-- Local-mode invariant: the client list is duplicate-free and every
registered client has a stream entry. -/
def LocalInv (s : LocalState) : Prop :=
  s.clients.Nodup ∧ ∀ c ∈ s.clients, (assocGet c s.streams).isSome

theorem localInv_of_reach {ok : Nat → Bool} {s : LocalState}
    (h : LocalReach ok s) : LocalInv s := by
  induction h with
  | init => exact ⟨List.nodup_nil, by simp⟩
  | connect s sid hfresh _ ih =>
    obtain ⟨hnd, hkeys⟩ := ih
    have hsid : sid ∉ s.clients := fun hm => by
      have := hkeys sid hm
      rw [hfresh] at this
      simp at this
    constructor
    · rw [localConnect, List.nodup_append]
      exact ⟨hnd, by simp, fun a ha hb => hsid (by simp at hb; exact hb ▸ ha)⟩
    · intro c hc
      rcases List.mem_append.mp hc with hc | hc
      · rw [show (localConnect s sid).streams
            = s.streams ++ [(sid, [connectedFrame false])] from rfl,
          assocGet_append]
        obtain ⟨v, hv⟩ := Option.isSome_iff_exists.mp (hkeys c hc)
        rw [hv]
        rfl
      · simp at hc
        subst hc
        rw [show (localConnect s c).streams
            = s.streams ++ [(c, [connectedFrame false])] from rfl,
          assocGet_append, hfresh]
        simp [assocGet]
  | publish s e _ ih =>
    obtain ⟨hnd, hkeys⟩ := ih
    refine ⟨hnd, fun c hc => ?_⟩
    rw [assocGet_isSome_iff_mem_keys,
      show ((localPublish ok s e).1).streams
        = fanout ok (sseFrame e.render) s.clients s.streams from rfl,
      fanout_keys, ← assocGet_isSome_iff_mem_keys]
    exact hkeys c hc
  | teardown s sid _ ih =>
    obtain ⟨hnd, hkeys⟩ := ih
    exact ⟨((removeClient_sublist s.clients sid)).nodup hnd,
      fun c hc => hkeys c ((removeClient_sublist s.clients sid).subset hc)⟩

/-- C3 amended: when a write fails on sink `sidF` during a local-mode
broadcast, the failure is only caught and logged: `sidF` **stays** in the
registry and its stream is unchanged, while every healthy sink `sidO`
still receives the event in the same broadcast. -/
theorem broadcast_failure_isolated (ok : Nat → Bool) (s : LocalState)
    (h : LocalReach ok s) (e : Event) (sidF sidO : Nat)
    (hF : sidF ∈ s.clients) (hO : sidO ∈ s.clients)
    (hfail : ok sidF = false) (hok : ok sidO = true) :
    ((localPublish ok s e).1).clients = s.clients ∧
    sidF ∈ ((localPublish ok s e).1).clients ∧
    getStream ((localPublish ok s e).1).streams sidF =
      getStream s.streams sidF ∧
    getStream ((localPublish ok s e).1).streams sidO =
      getStream s.streams sidO ++ [sseFrame e.render] := by
  obtain ⟨hnd, hkeys⟩ := localInv_of_reach h
  refine ⟨rfl, hF, ?_, ?_⟩
  · rw [getStream, getStream,
      show ((localPublish ok s e).1).streams
        = fanout ok (sseFrame e.render) s.clients s.streams from rfl,
      fanout_get_not_ok ok _ hfail]
  · obtain ⟨fs, hfs⟩ := Option.isSome_iff_exists.mp (hkeys sidO hO)
    rw [getStream, getStream,
      show ((localPublish ok s e).1).streams
        = fanout ok (sseFrame e.render) s.clients s.streams from rfl,
      fanout_get_delivered ok _ hnd hO hok, hfs]
    rfl

/-- Write environment in which sink 1's stream write throws and every other
write succeeds. -/
def okNot1 : Nat → Bool := fun n => n != 1

/-- The direct-publish body `{"content":"hi"}` of the scenario. -/
def hiEvent : Event := ⟨[("content", .str "hi")]⟩

/-- Local-mode state with sinks 0 and 1 subscribed. -/
def demoLocal2 : LocalState := localConnect (localConnect ⟨[], []⟩ 0) 1

/-- Local-mode state with sinks 0, 1 and 2 subscribed. -/
def demoLocal3 : LocalState := localConnect demoLocal2 2

theorem demoLocal2_reach (ok : Nat → Bool) : LocalReach ok demoLocal2 :=
  LocalReach.connect _ 1 (by decide)
    (LocalReach.connect _ 0 (by decide) LocalReach.init)

theorem demoLocal3_reach (ok : Nat → Bool) : LocalReach ok demoLocal3 :=
  LocalReach.connect _ 2 (by decide) (demoLocal2_reach ok)

/-- C3 counterexample: three sinks are subscribed and sink 1's write fails
during the broadcast; the other sinks do receive the frame, but sink 1 is
**not** removed from the registry, refuting "Si is removed from that
topic's registry". -/
theorem broadcast_failure_no_eviction :
    LocalReach okNot1 demoLocal3 ∧
    okNot1 1 = false ∧
    ((localPublish okNot1 demoLocal3 hiEvent).1).clients = [0, 1, 2] ∧
    getStream ((localPublish okNot1 demoLocal3 hiEvent).1).streams 1 =
      [connectedFrame false] ∧
    getStream ((localPublish okNot1 demoLocal3 hiEvent).1).streams 0 =
      [connectedFrame false, sseFrame hiEvent.render] ∧
    getStream ((localPublish okNot1 demoLocal3 hiEvent).1).streams 2 =
      [connectedFrame false, sseFrame hiEvent.render] :=
  ⟨demoLocal3_reach okNot1, rfl, rfl, by decide, by decide, by decide⟩

/-- C3 witness: the amended statement evaluated on the three-sink state
with sink 1 failing and sink 0 healthy. -/
theorem broadcast_failure_isolated_witness :
    ((localPublish okNot1 demoLocal3 hiEvent).1).clients =
      demoLocal3.clients ∧
    (1 : Nat) ∈ ((localPublish okNot1 demoLocal3 hiEvent).1).clients ∧
    getStream ((localPublish okNot1 demoLocal3 hiEvent).1).streams 1 =
      getStream demoLocal3.streams 1 ∧
    getStream ((localPublish okNot1 demoLocal3 hiEvent).1).streams 0 =
      getStream demoLocal3.streams 0 ++ [sseFrame hiEvent.render] :=
  broadcast_failure_isolated okNot1 demoLocal3 (demoLocal3_reach okNot1)
    hiEvent 1 0 (by decide) (by decide) rfl rfl

/-- C6 amended: in local mode a direct publish attempts one identical
serialized frame on every currently-subscribed sink; every sink whose write
succeeds receives exactly that frame, the registry is untouched, and the
response reports the number of currently-subscribed sinks (which equals the
number reached when every write succeeds). -/
theorem local_publish_reaches_all (ok : Nat → Bool) (s : LocalState)
    (h : LocalReach ok s) (hall : ∀ c ∈ s.clients, ok c = true) (e : Event) :
    (localPublish ok s e).2 = s.clients.length ∧
    ((localPublish ok s e).1).clients = s.clients ∧
    ∀ sid ∈ s.clients,
      getStream ((localPublish ok s e).1).streams sid =
        getStream s.streams sid ++ [sseFrame e.render] := by
  obtain ⟨hnd, hkeys⟩ := localInv_of_reach h
  refine ⟨rfl, rfl, fun sid hsid => ?_⟩
  obtain ⟨fs, hfs⟩ := Option.isSome_iff_exists.mp (hkeys sid hsid)
  rw [getStream, getStream,
    show ((localPublish ok s e).1).streams
      = fanout ok (sseFrame e.render) s.clients s.streams from rfl,
    fanout_get_delivered ok _ hnd hsid (hall sid hsid), hfs]
  rfl

/-- C6 counterexample: two sinks are subscribed but sink 1's write throws;
the publish response still reports `2` although only one sink was reached,
refuting "the publish response reports the count of sinks reached". -/
theorem local_publish_count_not_reached :
    LocalReach okNot1 demoLocal2 ∧
    (localPublish okNot1 demoLocal2 hiEvent).2 = 2 ∧
    getStream ((localPublish okNot1 demoLocal2 hiEvent).1).streams 1 =
      [connectedFrame false] ∧
    getStream ((localPublish okNot1 demoLocal2 hiEvent).1).streams 0 =
      [connectedFrame false, sseFrame hiEvent.render] :=
  ⟨demoLocal2_reach okNot1, rfl, by decide, by decide⟩

/-- C6 witness: with two healthy subscribed clients, the publish of
`{"content":"hi"}` reports 2 and both sinks receive the identical frame. -/
theorem local_publish_reaches_all_witness :
    (localPublish (fun _ => true) demoLocal2 hiEvent).2 = 2 ∧
    getStream ((localPublish (fun _ => true) demoLocal2 hiEvent).1).streams 0
      = [connectedFrame false, sseFrame hiEvent.render] ∧
    getStream ((localPublish (fun _ => true) demoLocal2 hiEvent).1).streams 1
      = [connectedFrame false, sseFrame hiEvent.render] := by
  have h := local_publish_reaches_all (fun _ => true) demoLocal2
    (demoLocal2_reach _) (fun c _ => rfl) hiEvent
  refine ⟨h.1.trans (by decide), ?_, ?_⟩
  · exact (h.2.2 0 (by decide)).trans (by decide)
  · exact (h.2.2 1 (by decide)).trans (by decide)

/-- C8: sink teardown is idempotent on every reachable local-mode state —
running the splice-out twice (close then write-error on the already-removed
sink) has exactly the effect of one teardown. -/
theorem local_teardown_idempotent (ok : Nat → Bool) (s : LocalState)
    (h : LocalReach ok s) (sid : Nat) :
    localTeardown (localTeardown s sid) sid = localTeardown s sid := by
  obtain ⟨hnd, _⟩ := localInv_of_reach h
  show LocalState.mk _ _ = LocalState.mk _ _
  rw [LocalState.mk.injEq]
  exact ⟨removeClient_of_not_mem (not_mem_removeClient_self hnd), rfl⟩

/-- C8 witness: double teardown of sink 0 on the two-subscriber state. -/
theorem local_teardown_idempotent_witness :
    localTeardown (localTeardown demoLocal2 0) 0 = localTeardown demoLocal2 0 :=
  local_teardown_idempotent (fun _ => true) demoLocal2
    (demoLocal2_reach _) 0

/-! ## The global comment stream, broker (Redis) mode

Source (server.js lines 426-478).  All requests share the single
`redisSubscriber`.  Each request registers its own `messageHandler` with
`redisSubscriber.subscribe("comment_events", messageHandler)`; the handler
checks the request's `isActive` flag before writing.  The close and error
handlers set `isActive = false` and then `await
redisSubscriber.unsubscribe("comment_events")`.  Per the node-redis v4
client contract, `unsubscribe(channel)` without a listener argument
unsubscribes the shared subscriber from the channel and drops **every**
listener registered on it, not only this request's. -/

structure BrokerState : Type where
  handlers : List Nat
  isActive : List (Nat × Bool)
  streams : List (Nat × List String)

/-- A new broker-mode subscriber: `connected` frame written, `isActive =
true`, and its `messageHandler` added to the shared channel subscription. -/
def brokerConnect (s : BrokerState) (sid : Nat) : BrokerState :=
  { handlers := s.handlers ++ [sid],
    isActive := s.isActive ++ [(sid, true)],
    streams := s.streams ++ [(sid, [connectedFrame true])] }

/-- Delivery of one broker message: every registered `messageHandler` runs
in order; each parses the message (a malformed one is caught by every
handler and nothing is written) and writes the re-serialized JSON to its
own sink unless its `isActive` flag is false (lines 429-440). -/
def brokerMessage (s : BrokerState) (m : Payload) : BrokerState :=
  match m with
  | .malformed => s
  | .ok e =>
    { s with streams :=
        (fanout (fun sid => (assocGet sid s.isActive).getD false)
          (sseFrame e.render) s.handlers s.streams) }

/-- First half of the close/error handlers: `isActive = false`. -/
def brokerSetInactive (s : BrokerState) (sid : Nat) : BrokerState :=
  { s with isActive := assocUpdate sid (fun _ => false) s.isActive }

/-- Second half of the close/error handlers: `await
redisSubscriber.unsubscribe("comment_events")`, which removes every
listener for the channel from the shared subscriber. -/
def brokerUnsubscribeAll (s : BrokerState) : BrokerState :=
  { s with handlers := [] }

/-- One asynchronous step of the broker-mode subsystem.  The two halves of
a close/error handler are separate steps, so a broker message may be
interleaved between the flag flip and the channel unsubscribe. -/
inductive BrokerStep : BrokerState → BrokerState → Prop
  | connect (s : BrokerState) (sid : Nat)
      (hfresh : assocGet sid s.isActive = none) :
      BrokerStep s (brokerConnect s sid)
  | message (s : BrokerState) (m : Payload) :
      BrokerStep s (brokerMessage s m)
  | setInactive (s : BrokerState) (sid : Nat) :
      BrokerStep s (brokerSetInactive s sid)
  | unsubscribeAll (s : BrokerState) :
      BrokerStep s (brokerUnsubscribeAll s)

/-- Broker-mode states reachable from the empty start state. -/
def BrokerReach (s : BrokerState) : Prop :=
  Relation.ReflTransGen BrokerStep ⟨[], [], []⟩ s

theorem assocGet_append_ne {α β : Type} [DecidableEq α] {a k : α}
    (h : a ≠ k) (l : List (α × β)) (v : β) :
    assocGet a (l ++ [(k, v)]) = assocGet a l := by
  rw [assocGet_append]
  cases assocGet a l with
  | some w => rfl
  | none =>
    have hka : ¬ k = a := fun hk => h hk.symm
    simp [assocGet, hka]

/-- One broker step can neither write to a sink whose liveness flag is
false nor revive the flag. -/
theorem brokerStep_preserves_inactive {s t : BrokerState} {sid : Nat}
    (hflag : assocGet sid s.isActive = some false) (hstep : BrokerStep s t) :
    getStream t.streams sid = getStream s.streams sid ∧
    assocGet sid t.isActive = some false := by
  cases hstep with
  | connect sid2 hfresh =>
    have hne : sid ≠ sid2 := fun he => by
      rw [he, hfresh] at hflag
      exact Option.noConfusion hflag
    constructor
    · rw [getStream, show (brokerConnect s sid2).streams
        = s.streams ++ [(sid2, [connectedFrame true])] from rfl,
        assocGet_append_ne hne]
      rfl
    · rw [show (brokerConnect s sid2).isActive
        = s.isActive ++ [(sid2, true)] from rfl,
        assocGet_append_ne hne]
      exact hflag
  | message m =>
    cases m with
    | malformed => exact ⟨rfl, hflag⟩
    | ok e =>
      constructor
      · rw [getStream, show (brokerMessage s (.ok e)).streams
          = fanout (fun sid2 => (assocGet sid2 s.isActive).getD false)
              (sseFrame e.render) s.handlers s.streams from rfl,
          fanout_get_not_ok _ _ (by rw [hflag]; rfl)]
        rfl
      · exact hflag
  | setInactive sid2 =>
    refine ⟨rfl, ?_⟩
    by_cases he : sid = sid2
    · subst he
      rw [show (brokerSetInactive s sid).isActive
          = assocUpdate sid (fun _ => false) s.isActive from rfl,
        assocGet_update_self, hflag]
      rfl
    · rw [show (brokerSetInactive s sid2).isActive
          = assocUpdate sid2 (fun _ => false) s.isActive from rfl,
        assocGet_update_ne he]
      exact hflag
  | unsubscribeAll => exact ⟨rfl, hflag⟩

/-- C10: once a broker-mode sink's close or error handler has set its
liveness flag to false, no subsequently received broker message is ever
written to that sink (the shared message handler may still run, but the
`isActive` guard rejects the write), and the flag never becomes true
again. -/
theorem broker_inactive_never_written (s s2 : BrokerState) (sid : Nat)
    (hflag : assocGet sid s.isActive = some false)
    (hsteps : Relation.ReflTransGen BrokerStep s s2) :
    getStream s2.streams sid = getStream s.streams sid ∧
    assocGet sid s2.isActive = some false := by
  induction hsteps with
  | refl => exact ⟨rfl, hflag⟩
  | tail _ hstep ih =>
    have h2 := brokerStep_preserves_inactive ih.2 hstep
    exact ⟨h2.1.trans ih.1, h2.2⟩

/-- Broker-mode state with sinks 0 and 1 subscribed. -/
def demoBroker2 : BrokerState := brokerConnect (brokerConnect ⟨[], [], []⟩ 0) 1

theorem demoBroker2_reach : BrokerReach demoBroker2 :=
  Relation.ReflTransGen.tail
    (Relation.ReflTransGen.single (BrokerStep.connect _ 0 (by decide)))
    (BrokerStep.connect _ 1 (by decide))

/-- State `demoBroker2` after sink 0's close handler ran its first half. -/
def demoBrokerInactive : BrokerState := brokerSetInactive demoBroker2 0

/-- C10 witness: sink 0's flag is false while its handler is still
registered; a broker message is then received and nothing more is written
to sink 0. -/
theorem broker_inactive_never_written_witness :
    getStream (brokerMessage demoBrokerInactive (.ok hiEvent)).streams 0 =
      getStream demoBrokerInactive.streams 0 ∧
    assocGet 0 (brokerMessage demoBrokerInactive (.ok hiEvent)).isActive =
      some false :=
  broker_inactive_never_written demoBrokerInactive _ 0 (by decide)
    (Relation.ReflTransGen.single (BrokerStep.message _ (.ok hiEvent)))

/-- The full close handler of sink 0 (flag false, then channel-wide
unsubscribe), followed by a broker message. -/
def demoBrokerAfterClose : BrokerState :=
  brokerMessage (brokerUnsubscribeAll (brokerSetInactive demoBroker2 0))
    (.ok hiEvent)

/-- C4: in broker mode, sink 0's disconnect unsubscribes the **shared**
subscriber from the channel and drops every listener, so a subsequent
broker message reaches no sink at all: sink 1 is still live (flag true,
never disconnected) yet its stream never receives the event frame and the
handler list is empty.  This refutes "delivery of subsequent events to
every other sink still subscribed to the same topic is unaffected". -/
theorem broker_disconnect_cuts_off_others :
    BrokerReach demoBrokerAfterClose ∧
    assocGet 1 demoBrokerAfterClose.isActive = some true ∧
    demoBrokerAfterClose.handlers = [] ∧
    getStream demoBrokerAfterClose.streams 1 = [connectedFrame true] :=
  ⟨Relation.ReflTransGen.tail
      (Relation.ReflTransGen.tail
        (Relation.ReflTransGen.tail demoBroker2_reach
          (BrokerStep.setInactive _ 0))
        (BrokerStep.unsubscribeAll _))
      (BrokerStep.message _ (.ok hiEvent)),
    by decide, by decide, by decide⟩

/-! ### The initial `connected` frame (C9) -/

theorem head?_append_left {α : Type} {l : List α} {a : α}
    (h : l.head? = some a) (l2 : List α) : (l ++ l2).head? = some a := by
  cases l with
  | nil => simp at h
  | cons x xs => simpa using h

theorem fanout_head_preserved {c : String} {st : List (Nat × List String)}
    (allow : Nat → Bool) (frame : String) (targets : List Nat)
    (hc : ∀ kv ∈ st, (kv.2 : List String).head? = some c) :
    ∀ kv ∈ fanout allow frame targets st,
      (kv.2 : List String).head? = some c := by
  induction targets generalizing st with
  | nil => exact hc
  | cons t ts ih =>
    rw [fanout_cons]
    apply ih
    by_cases ht : allow t
    · rw [if_pos ht]
      intro kv hkv
      rcases mem_assocUpdate hkv with ⟨v, hv, rfl⟩ | ⟨hkv, _⟩
      · exact head?_append_left (hc _ hv) _
      · exact hc _ hkv
    · rw [if_neg ht]
      exact hc

theorem localReach_stream_head {ok : Nat → Bool} {s : LocalState}
    (h : LocalReach ok s) :
    ∀ kv ∈ s.streams, (kv.2 : List String).head? = some (connectedFrame false) := by
  induction h with
  | init => simp
  | connect s sid hfresh _ ih =>
    intro kv hkv
    rcases List.mem_append.mp hkv with hkv | hkv
    · exact ih kv hkv
    · simp at hkv
      subst hkv
      rfl
  | publish s e _ ih =>
    exact fanout_head_preserved _ _ _ ih
  | teardown s sid _ ih => exact ih

theorem brokerReach_stream_head {s : BrokerState} (h : BrokerReach s) :
    ∀ kv ∈ s.streams, (kv.2 : List String).head? = some (connectedFrame true) := by
  induction h with
  | refl => simp
  | tail _ hstep ih =>
    cases hstep with
    | connect sid hfresh =>
      intro kv hkv
      rcases List.mem_append.mp hkv with hkv | hkv
      · exact ih kv hkv
      · simp at hkv
        subst hkv
        rfl
    | message m =>
      cases m with
      | malformed => exact ih
      | ok e => exact fanout_head_preserved _ _ _ ih
    | setInactive sid => exact ih
    | unsubscribeAll => exact ih

/-- C9: in both modes, every global-stream sink's very first frame — before
any broadcast can reach it — is the `connected` frame, whose `event` field
is `"connected"` and whose `message` field names the active mode (Redis
vs local). -/
theorem global_stream_connected_first :
    (∀ (ok : Nat → Bool) (s : LocalState), LocalReach ok s →
      ∀ kv ∈ s.streams,
        (kv.2 : List String).head? = some (connectedFrame false)) ∧
    (∀ s : BrokerState, BrokerReach s →
      ∀ kv ∈ s.streams,
        (kv.2 : List String).head? = some (connectedFrame true)) ∧
    assocGet "event" (connectedEvent false).fields =
      some (.str "connected") ∧
    assocGet "event" (connectedEvent true).fields =
      some (.str "connected") ∧
    assocGet "message" (connectedEvent false).fields =
      some (.str "SSE 연결 성공 (로컬 모드)") ∧
    assocGet "message" (connectedEvent true).fields =
      some (.str "SSE 연결 성공 (Redis 모드)") :=
  ⟨fun _ _ h => localReach_stream_head h,
   fun _ h => brokerReach_stream_head h,
   by decide, by decide, by decide, by decide⟩

/-- C9 witness: the head-frame facts evaluated on the concrete local and
broker demo states. -/
theorem global_stream_connected_first_witness :
    ((0, [connectedFrame false]) : Nat × List String).2.head? =
      some (connectedFrame false) ∧
    ((0, [connectedFrame true]) : Nat × List String).2.head? =
      some (connectedFrame true) :=
  ⟨global_stream_connected_first.1 (fun _ => true) demoLocal2
      (demoLocal2_reach _) _ (by decide),
   global_stream_connected_first.2.1 demoBroker2 demoBroker2_reach _
      (by decide)⟩

/-! ## The per-user notification stream (`/notifications/stream/:userId`)

Source (server.js lines 482-524).  The handler listens on
`new_notification`; its `notify` callback ignores the notification payload
entirely and instead re-queries
`SELECT * FROM notifications WHERE receiver_id = $1 ORDER BY created_at
DESC LIMIT 1` for the subscriber's user id, writing the single returned
row (if any) as one frame. -/

/-- One row of the `notifications` table: the queried columns
(`receiver_id`, `created_at`) plus the row's JSON rendering as
`JSON.stringify` would serialize it. -/
structure NotifRow : Type where
  receiver : String
  createdAt : Nat
  record : Event
deriving DecidableEq

/-- Accumulator step realizing `ORDER BY created_at DESC LIMIT 1` followed
by `rows[0]`: keep the row with the greatest `created_at` seen so far
(among equal keys SQL leaves the choice unspecified; the model keeps the
earlier row). -/
def laterOf (acc : Option NotifRow) (r : NotifRow) : Option NotifRow :=
  match acc with
  | none => some r
  | some b => if b.createdAt < r.createdAt then some r else some b

/-- The re-query (lines 502-505): the single most-recent row whose
`receiver_id` matches the subscriber's user id. -/
def latestNotification (userId : String) (store : List NotifRow) :
    Option NotifRow :=
  (store.filter (fun r => r.receiver == userId)).foldl laterOf none

/-- A received notification: its channel name and (unused) payload. -/
structure NotifMsg : Type where
  channel : String
  payload : Payload

/-- The `notify` callback (lines 499-511): on a `new_notification` wake-up,
re-query the store and write at most the one latest row. -/
def notificationsNotify (userId : String) (store : List NotifRow)
    (msg : NotifMsg) : Option String :=
  if msg.channel = "new_notification" then
    match latestNotification userId store with
    | some latest => some (sseFrame latest.record.render)
    | none => none
  else none

theorem laterOf_spec (acc : Option NotifRow) (a : NotifRow) :
    ∃ c, laterOf acc a = some c ∧ a.createdAt ≤ c.createdAt ∧
      (∀ b, acc = some b → b.createdAt ≤ c.createdAt) ∧
      (c = a ∨ acc = some c) := by
  cases acc with
  | none => exact ⟨a, rfl, le_refl _, by simp, Or.inl rfl⟩
  | some b =>
    by_cases h : b.createdAt < a.createdAt
    · refine ⟨a, by simp [laterOf, h], le_refl _, ?_, Or.inl rfl⟩
      intro b2 hb2
      injection hb2 with hb2
      rw [← hb2]
      exact le_of_lt h
    · refine ⟨b, by simp [laterOf, h], le_of_not_lt h, ?_, Or.inr rfl⟩
      intro b2 hb2
      injection hb2 with hb2
      rw [← hb2]

theorem foldl_laterOf_spec (l : List NotifRow) :
    ∀ (acc : Option NotifRow) (r : NotifRow), l.foldl laterOf acc = some r →
      (∀ b, acc = some b → b.createdAt ≤ r.createdAt) ∧
      (∀ r2 ∈ l, r2.createdAt ≤ r.createdAt) ∧
      (r ∈ l ∨ acc = some r) := by
  induction l with
  | nil =>
    intro acc r h
    rw [List.foldl_nil] at h
    refine ⟨fun b hb => ?_, by simp, Or.inr h⟩
    rw [h] at hb
    injection hb with hb
    rw [hb]
  | cons a l ih =>
    intro acc r h
    rw [List.foldl_cons] at h
    obtain ⟨hacc, hall, hmem⟩ := ih (laterOf acc a) r h
    obtain ⟨c, hc, hac, haccc, hcor⟩ := laterOf_spec acc a
    have hcr : c.createdAt ≤ r.createdAt := hacc c hc
    refine ⟨fun b hb => le_trans (haccc b hb) hcr, ?_, ?_⟩
    · intro r2 hr2
      rcases List.mem_cons.mp hr2 with hr2 | hr2
      · rw [hr2]
        exact le_trans hac hcr
      · exact hall r2 hr2
    · rcases hmem with hmem | hmem
      · exact Or.inl (List.mem_cons_of_mem _ hmem)
      · rw [hc] at hmem
        injection hmem with hmem
        rcases hcor with hcor | hcor
        · exact Or.inl (List.mem_cons.mpr (Or.inl (by rw [← hmem, hcor])))
        · exact Or.inr (by rw [hcor, hmem])

/-- The queried row belongs to the user and is most recent among the
user's rows. -/
theorem latestNotification_spec (userId : String) (store : List NotifRow)
    {r : NotifRow} (h : latestNotification userId store = some r) :
    r.receiver = userId ∧ r ∈ store ∧
    ∀ r2 ∈ store, r2.receiver = userId → r2.createdAt ≤ r.createdAt := by
  obtain ⟨_, hall, hmem⟩ := foldl_laterOf_spec _ none r h
  rcases hmem with hmem | hmem
  · have hf := List.mem_filter.mp hmem
    refine ⟨by simpa using hf.2, List.mem_of_mem_filter hmem, ?_⟩
    intro r2 hr2 hrecv
    exact hall r2 (List.mem_filter.mpr ⟨hr2, by simp [hrecv]⟩)
  · exact Option.noConfusion hmem

/-- C7: on every `new_notification` wake-up the relay's output is exactly
the re-queried single most-recent row for the subscriber's user id — the
output is independent of the notification payload (never the raw payload),
at most one record is written per wake-up, and the chosen record belongs
to the user and is most recent among the user's records. -/
theorem notifications_requery_latest (userId : String)
    (store : List NotifRow) (ch : String) (p p2 : Payload)
    (hch : ch = "new_notification") :
    notificationsNotify userId store ⟨ch, p⟩ =
      notificationsNotify userId store ⟨ch, p2⟩ ∧
    notificationsNotify userId store ⟨ch, p⟩ =
      (latestNotification userId store).map
        (fun r => sseFrame r.record.render) ∧
    ∀ r, latestNotification userId store = some r →
      r.receiver = userId ∧
      ∀ r2 ∈ store, r2.receiver = userId → r2.createdAt ≤ r.createdAt := by
  subst hch
  refine ⟨rfl, ?_, ?_⟩
  · rw [notificationsNotify]
    rw [if_pos rfl]
    cases latestNotification userId store <;> rfl
  · intro r hr
    have hspec := latestNotification_spec userId store hr
    exact ⟨hspec.1, hspec.2.2⟩

/-- Three stored rows: two for user `"42"` (created at 1 and 5) and one
for another user. -/
def demoStore : List NotifRow :=
  [⟨"42", 1, ⟨[("id", .num 1), ("receiver_id", .str "42")]⟩⟩,
   ⟨"42", 5, ⟨[("id", .num 2), ("receiver_id", .str "42")]⟩⟩,
   ⟨"7", 9, ⟨[("id", .num 3), ("receiver_id", .str "7")]⟩⟩]

/-- C7 witness: for user `"42"` the wake-up output is payload-independent
and equals the frame of the stored latest row. -/
theorem notifications_requery_latest_witness :
    notificationsNotify "42" demoStore ⟨"new_notification", .malformed⟩ =
      notificationsNotify "42" demoStore ⟨"new_notification", .ok hiEvent⟩ ∧
    notificationsNotify "42" demoStore ⟨"new_notification", .malformed⟩ =
      (latestNotification "42" demoStore).map
        (fun r => sseFrame r.record.render) :=
  ⟨(notifications_requery_latest "42" demoStore _ .malformed
      (.ok hiEvent) rfl).1,
   (notifications_requery_latest "42" demoStore _ .malformed
      (.ok hiEvent) rfl).2.1⟩

end CommSse

